import Mathlib

/-!
Shallow embedding of `tools/i2cget.c` (i2c-tools): the transaction-selection,
safety-gate, capability-check, execution and result-formatting logic of the
`i2cget` command-line tool, together with theorems checking the natural
language specification against it.

The embedding follows the source text of `i2cget.c`:
* argument digestion after option parsing (`main`, the blocks setting
  `size`, `daddress`, `daddrlen` and `pec`),
* `check_funcs`, `confirm`, `writeaddr`,
* the execution dispatch (`if (length) ... else switch (size)`),
* the output formatting (`printf` calls at the end of `main`).

External collaborators that are not part of `i2cget.c` (the kernel `read`,
`write` and `ioctl` calls, `open_i2c_dev`, `set_slave_addr`, `user_ack`,
memory allocation) are represented by an `Oracle` of their outcomes; the
observable behaviour of one invocation is an `Outcome`: the exit code, the
ordered trace of handle/bus actions, and the lines printed on stdout.
-/

/-- SMBus transaction sizes used by i2cget: `I2C_SMBUS_BYTE`,
`I2C_SMBUS_BYTE_DATA`, `I2C_SMBUS_WORD_DATA`. -/
inductive SmbusSize where
  | byte
  | byteData
  | wordData
deriving DecidableEq, Repr

/-- The positional arguments after I2CBUS and CHIP-ADDRESS: none,
a register (data) address alone, or a register address plus a MODE string.
The C program accepts MODE only when a DATA-ADDRESS argument precedes it. -/
inductive Positional where
  | noDaddr
  | daddr (d : Nat)
  | daddrMode (d : Nat) (m : List Char)
deriving DecidableEq, Repr

/-- Decoded command line of one invocation: the `-y` flag, the `-l` length
(0 when absent), the chip address, and the positional arguments. -/
structure Args where
  yes : Bool
  length : Nat
  address : Nat
  pos : Positional
deriving DecidableEq, Repr

/-- State computed by `main` from the positional arguments: the SMBus size,
the PEC flag, the optional register address and its inferred byte width
(`daddrlen`). -/
structure Config where
  size : SmbusSize
  pec : Bool
  daddress : Option Nat
  daddrlen : Nat
deriving DecidableEq, Repr

/-- Fuel-driven form of the `daddrlen` loop of `main`:
`while (daddress >> (8 * daddrlen)) ++daddrlen;`. -/
def inferWidthFuel : Nat → Nat → Nat
  | 0, _ => 0
  | fuel + 1, a => if a = 0 then 0 else inferWidthFuel fuel (a / 256) + 1

/-- Byte width `main` infers for a register address: the least `n` with
`a >> (8*n) == 0`. The fuel `a` always suffices. -/
def inferWidth (a : Nat) : Nat :=
  inferWidthFuel a a

/-- The mode-character switch of `main`: `b`, `w`, `c` select a size, any
other first character reaches `help()` (usage error, exit 1). -/
def modeSize (ch : Char) : Option SmbusSize :=
  if ch = 'b' then some SmbusSize.byteData
  else if ch = 'w' then some SmbusSize.wordData
  else if ch = 'c' then some SmbusSize.byte
  else none

/-- The argument-digestion block of `main` (lines setting `size`,
`daddress`, `daddrlen` and `pec`): no register address gives
`I2C_SMBUS_BYTE` with `daddress = -1`; a register address gives
`I2C_SMBUS_BYTE_DATA` and the width loop; a mode argument overrides the
size by its first character (invalid first character exits via `help()`,
modelled as `none`) and sets `pec` exactly when its second character is
`p`. -/
def parseArgs (a : Args) : Option Config :=
  match a.pos with
  | Positional.noDaddr => some ⟨SmbusSize.byte, false, none, 0⟩
  | Positional.daddr d => some ⟨SmbusSize.byteData, false, some d, inferWidth d⟩
  | Positional.daddrMode d m =>
    match m.head? with
    | none => none
    | some ch =>
      match modeSize ch with
      | none => none
      | some s => some ⟨s, m.get? 1 == some 'p', some d, inferWidth d⟩

/-- The bytes `writeaddr` places in `buf` and writes to the bus: the width
is capped at `MAX_ADDR_LEN = 2` and the bytes are
`(adr >> (8 * (len - 1 - i))) & 0xff`, most significant first. -/
def writeaddrBytes (adr : Nat) (len : Nat) : List Nat :=
  (List.range (min len 2)).map (fun i => (adr >>> (8 * (min len 2 - 1 - i))) % 256)

/-- Big-endian decoding of a byte sequence (used to state what the emitted
address bytes denote). -/
def decodeBE (bs : List Nat) : Nat :=
  bs.foldl (fun acc b => acc * 256 + b) 0

/-- Recursive presentation of big-endian byte emission, used as a proof
vehicle for `writeaddrBytes`. -/
def bytesBE : Nat → Nat → List Nat
  | 0, _ => []
  | l + 1, a => bytesBE l (a / 256) ++ [a % 256]

/-- Uppercase hexadecimal digit, as produced by `printf %X`. -/
def hexCharUpper (d : Nat) : Char :=
  if d < 10 then Char.ofNat (48 + d) else Char.ofNat (55 + d)

/-- Lowercase hexadecimal digit, as produced by `printf %x`. -/
def hexCharLower (d : Nat) : Char :=
  if d < 10 then Char.ofNat (48 + d) else Char.ofNat (87 + d)

/-- Fuel-driven hexadecimal digit expansion, most significant digit first;
empty for 0 (the caller pads). The fuel `n` always suffices. -/
def hexRepFuel (hc : Nat → Char) : Nat → Nat → List Char
  | 0, _ => []
  | fuel + 1, n => if n = 0 then [] else hexRepFuel hc fuel (n / 16) ++ [hc (n % 16)]

/-- Digits of `printf("%0*_", width, n)`: the hexadecimal digits of `n`,
zero-padded on the left to at least `width` characters. -/
def padHex (hc : Nat → Char) (width : Nat) (n : Nat) : List Char :=
  let ds := if n = 0 then ['0'] else hexRepFuel hc n n
  List.replicate (width - ds.length) '0' ++ ds

/-- Value `printf("%02X", resbufptr[i])` receives for a buffer byte `b`.
`resbufptr` is declared `char *`; on the tool's target platforms plain
`char` is signed, so a byte at or above 0x80 is sign-extended to a negative
`int` by the default argument promotion and `%X` reinterprets it as
`unsigned int` (32-bit): the value printed is `2^32 - 256 + b`. -/
def fmtByteC (b : Nat) : String :=
  String.mk (padHex hexCharUpper 2 (if b < 128 then b else 4294967296 - 256 + b))

/-- The raw-read output block of `main`: lengths 1, 2, 4, 8 print one
`0x`-prefixed run of the per-byte `%02X` renderings; any other length
prints one `0x`-prefixed `%02X` rendering per byte, space separated. -/
def formatRaw (len : Nat) (buf : List Nat) : String :=
  if len = 1 ∨ len = 2 ∨ len = 4 ∨ len = 8 then
    "0x" ++ String.join (buf.map fmtByteC)
  else
    String.intercalate " " (buf.map (fun b => "0x" ++ fmtByteC b))

/-- The structured-read output of `main`:
`printf("0x%0*x\n", size == I2C_SMBUS_WORD_DATA ? 4 : 2, res)`. -/
def fmtStruct (size : SmbusSize) (res : Int) : String :=
  String.mk ('0' :: 'x' ::
    padHex hexCharLower (if size == SmbusSize.wordData then 4 else 2) res.toNat)

/-- Adapter functionality bits consulted by `check_funcs`:
`I2C_FUNC_SMBUS_READ_BYTE`, `I2C_FUNC_SMBUS_WRITE_BYTE`,
`I2C_FUNC_SMBUS_READ_BYTE_DATA`, `I2C_FUNC_SMBUS_READ_WORD_DATA`,
`I2C_FUNC_SMBUS_PEC`, `I2C_FUNC_I2C`. -/
structure Funcs where
  readByte : Bool
  writeByte : Bool
  readByteData : Bool
  readWordData : Bool
  pecFlag : Bool
  i2cFlag : Bool
deriving DecidableEq, Repr

/-- The function `check_funcs` of i2cget.c as a pass/fail predicate:
`none` models a failed `I2C_FUNCS` ioctl. For `I2C_SMBUS_BYTE` it requires
receive-byte and, when a register address is present, send-byte; for
`I2C_SMBUS_BYTE_DATA` read-byte-data; for `I2C_SMBUS_WORD_DATA`
read-word-data. The PEC branch only prints a warning and never changes the
return value. -/
def check_funcs (funcs : Option Funcs) (size : SmbusSize) (daddrPresent : Bool) : Bool :=
  match funcs with
  | none => false
  | some f =>
    match size with
    | SmbusSize.byte => f.readByte && (!daddrPresent || f.writeByte)
    | SmbusSize.byteData => f.readByteData
    | SmbusSize.wordData => f.readWordData

/-- Modelled from the spec: `user_ack` lives in util.c, which is not among
the covered sources. Per the SafetyGate contract of the specification the
prompt is a yes/no question with a default: an affirmative response
accepts, a negative response declines, and any other (or empty) response
yields the default answer. -/
def user_ack (dflt : Bool) (resp : Char) : Bool :=
  if resp = 'y' ∨ resp = 'Y' then true
  else if resp = 'n' ∨ resp = 'N' then false
  else dflt

/-- Observable actions of one invocation, in program order: the attempts to
open the device, query functionality, bind the slave address, prompt the
user (with the offered default), enable PEC, write address bytes to the
bus, perform each kind of read, and close the handle. -/
inductive Event where
  | openDev
  | checkFuncsQ
  | setSlave
  | prompt (defaultYes : Bool)
  | pecIoctl
  | busWrite (bytes : List Nat)
  | busRawRead (len : Nat)
  | busReadByte
  | busReadByteData
  | busReadWordData
  | closeFd
deriving DecidableEq, Repr

/-- Whether an event is a bus read transaction. -/
def isBusRead : Event → Bool
  | Event.busRawRead _ => true
  | Event.busReadByte => true
  | Event.busReadByteData => true
  | Event.busReadWordData => true
  | _ => false

/-- Outcomes of the external calls i2cget makes: whether `open_i2c_dev`,
the functionality ioctl, `set_slave_addr`, the PEC ioctl and `calloc`
succeed, the first character of the user's reply to the prompt, and the
results of the raw `read` (returned count and buffer bytes) and of the
structured SMBus read. -/
structure Oracle where
  openOk : Bool
  funcs : Option Funcs
  slaveOk : Bool
  resp : Char
  pecOk : Bool
  allocOk : Bool
  readRes : Int
  readBytes : List Nat
  smbusRes : Int
deriving DecidableEq, Repr

/-- Observable behaviour of one invocation: exit code, ordered event
trace, and the lines written to standard output. -/
structure Outcome where
  exitCode : Nat
  events : List Event
  stdout : List String
deriving DecidableEq, Repr

/-- The function `confirm` of i2cget.c, reduced to its observable content:
the EEPROM guard (chip address 0x50..0x57 with PEC) returns 0 before any
prompt; otherwise `dont` is set for `I2C_SMBUS_BYTE` with a register
address and PEC, the prompt offers default `Y/n` (or `y/N` when `dont`),
and `user_ack(!dont)` decides. Returns the prompt events and the
proceed/abort result. -/
def confirm (address : Nat) (c : Config) (resp : Char) : List Event × Bool :=
  if 0x50 ≤ address ∧ address ≤ 0x57 ∧ c.pec = true then
    ([], false)
  else
    let dont := c.size == SmbusSize.byte && c.daddress.isSome && c.pec
    ([Event.prompt (!dont)], user_ack (!dont) resp)

/-- Contents of the raw read buffer as printed: `calloc` zero-fills it and
the `read` deposits the received bytes (each in 0..255) at the front; the
print loops walk exactly `len` cells. -/
def rawBuffer (len : Nat) (bs : List Nat) : List Nat :=
  (bs.map (fun b => b % 256) ++ List.replicate len 0).take len

/-- Events `writeaddr` contributes: nothing when `adr < 0` (no register
address); otherwise one `write` of the encoded bytes (possibly an empty
write when the inferred width is 0). A short write only prints a warning,
which does not alter control flow. -/
def writeaddrEvents (daddress : Option Nat) (len : Nat) : List Event :=
  match daddress with
  | none => []
  | some a => [Event.busWrite (writeaddrBytes a len)]

/-- Tail of `main` shared by the structured reads: `close(file)`, then a
negative result is a fatal read failure (exit 2) and a non-negative result
is printed with `0x%0*x`. -/
def structFinish (ev : List Event) (size : SmbusSize) (res : Int) : Outcome :=
  if res < 0 then ⟨2, ev ++ [Event.closeFd], []⟩
  else ⟨0, ev ++ [Event.closeFd], [fmtStruct size res]⟩

/-- The execution dispatch of `main`: a nonzero `-l` length takes the raw
path (allocate, `writeaddr`, one `read`, close, then compare the returned
count against the requested length); otherwise the structured path selected
by `size` (with `writeaddr` only on the `I2C_SMBUS_BYTE` path). -/
def execBody (len : Nat) (c : Config) (o : Oracle) (ev : List Event) : Outcome :=
  if len ≠ 0 then
    if o.allocOk = false then ⟨1, ev ++ [Event.closeFd], []⟩
    else
      let ev2 := (ev ++ writeaddrEvents c.daddress c.daddrlen ++ [Event.busRawRead len]) ++ [Event.closeFd]
      if o.readRes = (len : Int) then
        ⟨0, ev2, [formatRaw len (rawBuffer len o.readBytes)]⟩
      else ⟨2, ev2, []⟩
  else
    match c.size with
    | SmbusSize.byte =>
      structFinish (ev ++ writeaddrEvents c.daddress c.daddrlen ++ [Event.busReadByte]) SmbusSize.byte o.smbusRes
    | SmbusSize.wordData =>
      structFinish (ev ++ [Event.busReadWordData]) SmbusSize.wordData o.smbusRes
    | SmbusSize.byteData =>
      structFinish (ev ++ [Event.busReadByteData]) SmbusSize.byteData o.smbusRes

/-- The PEC-enabling step of `main`: when `pec` is set, the `I2C_PEC` ioctl
runs before the transaction; its failure closes the handle and exits 1. -/
def execute (len : Nat) (c : Config) (o : Oracle) (ev : List Event) : Outcome :=
  if c.pec = true then
    if o.pecOk = false then ⟨1, (ev ++ [Event.pecIoctl]) ++ [Event.closeFd], []⟩
    else execBody len c o (ev ++ [Event.pecIoctl])
  else execBody len c o ev

/-- One full invocation of i2cget after option decoding, following `main`:
argument digestion, `open_i2c_dev` / `check_funcs` / `set_slave_addr`
(short-circuit, exit 1 on failure, no close), the confirmation gate
(skipped entirely under `-y`; declining exits 0 without close), then the
PEC step and the execution dispatch. -/
def run (a : Args) (o : Oracle) : Outcome :=
  match parseArgs a with
  | none => ⟨1, [], []⟩
  | some c =>
    if o.openOk = false then ⟨1, [Event.openDev], []⟩
    else if check_funcs o.funcs c.size c.daddress.isSome = false then
      ⟨1, [Event.openDev, Event.checkFuncsQ], []⟩
    else if o.slaveOk = false then
      ⟨1, [Event.openDev, Event.checkFuncsQ, Event.setSlave], []⟩
    else
      let base := [Event.openDev, Event.checkFuncsQ, Event.setSlave]
      if a.yes = true then execute a.length c o base
      else
        let cf := confirm a.address c o.resp
        if cf.2 = true then execute a.length c o (base ++ cf.1)
        else ⟨0, base ++ cf.1, []⟩

/-- Whether the invocation gets past the open/capability/slave stages and
the confirmation gate (the point after which `main` always closes the
handle before exiting). -/
def gatePassed (a : Args) (o : Oracle) : Bool :=
  match parseArgs a with
  | none => false
  | some c =>
    o.openOk && check_funcs o.funcs c.size c.daddress.isSome && o.slaveOk &&
      (a.yes || (confirm a.address c o.resp).2)

/-- The transaction actually issued by the execution dispatch. -/
inductive Plan where
  | rawRead (len : Nat)
  | currentByte
  | byteData
  | wordData
deriving DecidableEq, Repr

/-- Plan the execution dispatch of `main` runs for a given length and
digested configuration: a nonzero length always takes the raw path,
otherwise the path selected by `size`. -/
def executedPlan (len : Nat) (c : Config) : Plan :=
  if 0 < len then Plan.rawRead len
  else
    match c.size with
    | SmbusSize.byte => Plan.currentByte
    | SmbusSize.byteData => Plan.byteData
    | SmbusSize.wordData => Plan.wordData

/-- Spec-side definition for the refinement claim C1: the decision table of
specification section 4.4 exactly as the claim words it. Raw length wins
over the mode character; no register address means CurrentByte; a register
address without mode means ByteData; mode characters map b, w, c to
ByteData, WordData, CurrentByte; any other first character is a fatal
input error. -/
def decisionTable (len : Nat) (pos : Positional) : Option Plan :=
  match pos with
  | Positional.noDaddr => some (if 0 < len then Plan.rawRead len else Plan.currentByte)
  | Positional.daddr _ => some (if 0 < len then Plan.rawRead len else Plan.byteData)
  | Positional.daddrMode _ m =>
    match m.head? with
    | none => none
    | some ch =>
      if ch = 'b' then some (if 0 < len then Plan.rawRead len else Plan.byteData)
      else if ch = 'w' then some (if 0 < len then Plan.rawRead len else Plan.wordData)
      else if ch = 'c' then some (if 0 < len then Plan.rawRead len else Plan.currentByte)
      else none

/-- Adapter with every functionality bit set. -/
def okFuncs : Funcs := ⟨true, true, true, true, true, true⟩

/-- Adapter lacking `I2C_FUNC_SMBUS_READ_BYTE_DATA` only. -/
def noByteDataFuncs : Funcs := ⟨true, true, false, true, true, true⟩

/-- Oracle in which every external call succeeds: raw reads return 3 bytes
`01 02 03`, structured reads return 0x42, the user answers `y`. -/
def okOracle : Oracle := ⟨true, some okFuncs, true, 'y', true, true, 3, [1, 2, 3], 0x42⟩

/-- Invocation with an invalid mode character: register 0x10, mode `x`. -/
def badModeArgs : Args := ⟨false, 0, 0x48, Positional.daddrMode 0x10 ['x']⟩

/-- Invocation at EEPROM address 0x50 with PEC (`bp`) and `-y`. -/
def eepromYesArgs : Args := ⟨true, 0, 0x50, Positional.daddrMode 0x10 ['b', 'p']⟩

/-- Invocation at EEPROM address 0x50 with PEC (`bp`), interactive. -/
def eepromAskArgs : Args := ⟨false, 0, 0x50, Positional.daddrMode 0x10 ['b', 'p']⟩

/-- Raw-read invocation `-l 3` with a register address and no mode. -/
def rawLenArgs : Args := ⟨true, 3, 0x48, Positional.daddr 0x10⟩

/-- Oracle whose adapter lacks read-byte-data (everything else succeeds). -/
def noByteDataOracle : Oracle := ⟨true, some noByteDataFuncs, true, 'y', true, true, 3, [1, 2, 3], 0x42⟩

/-- Oracle in which the raw `read` returns only 2 of 3 requested bytes. -/
def shortReadOracle : Oracle := ⟨true, some okFuncs, true, 'y', true, true, 2, [1, 2], 0x42⟩

/-- Interactive CurrentByte-with-register-and-PEC invocation (`cp`) at the
EEPROM address 0x50. -/
def cpEepromArgs : Args := ⟨false, 0, 0x50, Positional.daddrMode 0x10 ['c', 'p']⟩

/-- Interactive CurrentByte-with-register-and-PEC invocation (`cp`) at the
ordinary address 0x48. -/
def cpPlainArgs : Args := ⟨false, 0, 0x48, Positional.daddrMode 0x10 ['c', 'p']⟩

/-- Oracle in which the user replies `x` (neither yes nor no). -/
def replyXOracle : Oracle := ⟨true, some okFuncs, true, 'x', true, true, 3, [1, 2, 3], 0x42⟩

/-- Invocation with mode argument `bx`: valid first character, second
character other than `p`. -/
def bxModeArgs : Args := ⟨false, 0, 0x48, Positional.daddrMode 0x10 ['b', 'x']⟩

/-- Invocation with register address 0 and a raw length. -/
def zeroAddrRawArgs : Args := ⟨true, 3, 0x48, Positional.daddr 0⟩

theorem inferWidthFuel_lt (fuel : Nat) : ∀ a : Nat, a ≤ fuel → a < 256 ^ inferWidthFuel fuel a := by
  induction fuel with
  | zero =>
    intro a ha
    have : a = 0 := Nat.le_zero.mp ha
    subst this
    simp [inferWidthFuel]
  | succ n ih =>
    intro a ha
    by_cases h : a = 0
    · subst h; simp [inferWidthFuel]
    · have hstep : inferWidthFuel (n + 1) a = inferWidthFuel n (a / 256) + 1 := by
        simp [inferWidthFuel, h]
      have hle : a / 256 ≤ n := by
        have hlt : a / 256 < a := Nat.div_lt_self (Nat.pos_of_ne_zero h) (by norm_num)
        omega
      have hq := ih (a / 256) hle
      rw [hstep, pow_succ]
      have hdm := Nat.div_add_mod a 256
      have hm : a % 256 < 256 := Nat.mod_lt _ (by norm_num)
      generalize 256 ^ inferWidthFuel n (a / 256) = t at hq ⊢
      omega

theorem inferWidthFuel_le (fuel : Nat) : ∀ a m : Nat, a < 256 ^ m → inferWidthFuel fuel a ≤ m := by
  induction fuel with
  | zero => intro a m _; simp [inferWidthFuel]
  | succ n ih =>
    intro a m hm
    by_cases h : a = 0
    · subst h; simp [inferWidthFuel]
    · have hstep : inferWidthFuel (n + 1) a = inferWidthFuel n (a / 256) + 1 := by
        simp [inferWidthFuel, h]
      rw [hstep]
      cases m with
      | zero =>
        exfalso
        have : a < 1 := by simpa using hm
        omega
      | succ m' =>
        have hdiv : a / 256 < 256 ^ m' := by
          rw [Nat.div_lt_iff_lt_mul (by norm_num : (0:Nat) < 256)]
          rw [pow_succ] at hm
          exact hm
        exact Nat.succ_le_succ (ih (a / 256) m' hdiv)

theorem inferWidth_lt (a : Nat) : a < 256 ^ inferWidth a :=
  inferWidthFuel_lt a a le_rfl

theorem inferWidth_min (a m : Nat) (h : a < 256 ^ m) : inferWidth a ≤ m :=
  inferWidthFuel_le a a m h

theorem rangeMap_eq_bytesBE : ∀ (l a : Nat),
    (List.range l).map (fun i => (a >>> (8 * (l - 1 - i))) % 256) = bytesBE l a := by
  intro l
  induction l with
  | zero => intro a; simp [bytesBE]
  | succ n ih =>
    intro a
    rw [List.range_succ, List.map_append]
    have hlast : [n].map (fun i => (a >>> (8 * (n + 1 - 1 - i))) % 256) = [a % 256] := by
      simp
    have hfront : (List.range n).map (fun i => (a >>> (8 * (n + 1 - 1 - i))) % 256)
        = (List.range n).map (fun i => ((a / 256) >>> (8 * (n - 1 - i))) % 256) := by
      apply List.map_congr_left
      intro i hi
      have hin : i < n := List.mem_range.mp hi
      have hsub : n + 1 - 1 - i = (n - 1 - i) + 1 := by omega
      rw [hsub, Nat.shiftRight_eq_div_pow, Nat.shiftRight_eq_div_pow,
        Nat.div_div_eq_div_mul]
      have hpow : (256 : Nat) * 2 ^ (8 * (n - 1 - i)) = 2 ^ (8 * ((n - 1 - i) + 1)) := by
        rw [Nat.mul_succ, pow_add]
        norm_num
        ring
      rw [hpow]
    rw [hlast, hfront, ih (a / 256)]
    rfl

theorem writeaddrBytes_eq_bytesBE (adr len : Nat) :
    writeaddrBytes adr len = bytesBE (min len 2) adr :=
  rangeMap_eq_bytesBE (min len 2) adr

theorem decodeBE_append_byte (xs : List Nat) (b : Nat) :
    decodeBE (xs ++ [b]) = decodeBE xs * 256 + b := by
  simp [decodeBE, List.foldl_append]

theorem decodeBE_bytesBE : ∀ (l a : Nat), decodeBE (bytesBE l a) = a % 256 ^ l := by
  intro l
  induction l with
  | zero => intro a; simp [bytesBE, decodeBE, Nat.mod_one]
  | succ n ih =>
    intro a
    show decodeBE (bytesBE n (a / 256) ++ [a % 256]) = a % 256 ^ (n + 1)
    rw [decodeBE_append_byte, ih (a / 256)]
    have hpow : (256 : Nat) ^ (n + 1) = 256 * 256 ^ n := by
      rw [pow_succ]; ring
    rw [hpow]
    have h1 := Nat.div_add_mod (a % (256 * 256 ^ n)) 256
    have h2 : a % (256 * 256 ^ n) / 256 = a / 256 % 256 ^ n :=
      Nat.mod_mul_right_div_self a 256 (256 ^ n)
    have h3 : a % (256 * 256 ^ n) % 256 = a % 256 :=
      Nat.mod_mul_right_mod a 256 (256 ^ n)
    omega

theorem bytesBE_length : ∀ (l a : Nat), (bytesBE l a).length = l := by
  intro l
  induction l with
  | zero => intro a; rfl
  | succ n ih => intro a; simp [bytesBE, ih (a / 256)]

/-- C5: for every non-negative register address `a`, the address encoder
(`writeaddr` invoked with the width `main` infers) emits exactly
`min (inferWidth a) 2` bytes, most significant first; decoding them
big-endian yields `a mod 2^(8*width)`; the inferred width is minimal among
the widths representing `a` without truncation, and it is capped at 2 on
emission, so addresses wider than 2 bytes are silently truncated to their
low-order 2 bytes. -/
theorem addressEncoder_bigEndian_minimal (a : Nat) :
    (writeaddrBytes a (inferWidth a)).length = min (inferWidth a) 2 ∧
    decodeBE (writeaddrBytes a (inferWidth a)) = a % 2 ^ (8 * min (inferWidth a) 2) ∧
    a < 2 ^ (8 * inferWidth a) ∧
    (∀ m : Nat, a < 2 ^ (8 * m) → inferWidth a ≤ m) := by
  have h256 : ∀ k : Nat, (256 : Nat) ^ k = 2 ^ (8 * k) := by
    intro k
    rw [pow_mul]
    norm_num
  refine ⟨?_, ?_, ?_, ?_⟩
  · rw [writeaddrBytes_eq_bytesBE, bytesBE_length]
  · rw [writeaddrBytes_eq_bytesBE, decodeBE_bytesBE, h256]
  · rw [← h256]
    exact inferWidth_lt a
  · intro m hm
    exact inferWidth_min a m (by rw [h256]; exact hm)

/-- Witness for C5 at the three-byte address 0x12345: the inferred width is
bounded by any representing width, and the emitted bytes decode to the
low-order two bytes. -/
theorem addressEncoder_bigEndian_minimal_witness :
    inferWidth 0x12345 ≤ 3 ∧
    decodeBE (writeaddrBytes 0x12345 (inferWidth 0x12345)) = 0x12345 % 2 ^ 16 := by
  constructor
  · exact (addressEncoder_bigEndian_minimal 0x12345).2.2.2 3 (by norm_num)
  · have h := (addressEncoder_bigEndian_minimal 0x12345).2.1
    have hw : inferWidth 0x12345 = 3 := by decide
    rw [hw] at h
    simpa using h

/-- C1: the selector of i2cget implements the claimed first-match decision
table: the digested arguments succeed exactly when the table does, and the
transaction the dispatch of `main` then executes is the table's plan — a
nonzero raw length gives `RawRead` of that length whatever the (valid)
mode character, no register address gives `CurrentByte`, a register
address without mode gives `ByteData`, mode characters b, w, c give
`ByteData`, `WordData`, `CurrentByte`, and any other first character is a
usage error: `help()` exits 1 before any event. -/
theorem transactionSelector_matches_table (a : Args) :
    Option.map (executedPlan a.length) (parseArgs a) = decisionTable a.length a.pos ∧
    (parseArgs a = none → ∀ o : Oracle, run a o = ⟨1, [], []⟩) := by
  constructor
  · rcases a with ⟨yes, len, addr, pos⟩
    cases pos with
    | noDaddr => simp [parseArgs, decisionTable, executedPlan]
    | daddr d => simp [parseArgs, decisionTable, executedPlan]
    | daddrMode d m =>
      cases hm : m.head? with
      | none => simp [parseArgs, decisionTable, hm]
      | some ch =>
        simp only [parseArgs, decisionTable, hm, modeSize]
        split_ifs <;> simp [executedPlan] <;> omega
  · intro h o
    simp [run, h]

/-- Witness for C1 at the invalid mode character `x`: the table rejects,
the digestion rejects, and the run exits 1. -/
theorem transactionSelector_matches_table_witness :
    Option.map (executedPlan badModeArgs.length) (parseArgs badModeArgs) =
      decisionTable badModeArgs.length badModeArgs.pos ∧
    run badModeArgs okOracle = ⟨1, [], []⟩ :=
  ⟨(transactionSelector_matches_table badModeArgs).1,
   (transactionSelector_matches_table badModeArgs).2 (by decide) okOracle⟩

theorem structFinish_close (ev : List Event) (size : SmbusSize) (res : Int) :
    Event.closeFd ∈ (structFinish ev size res).events ∧
    (structFinish ev size res).events.getLast? = some Event.closeFd := by
  unfold structFinish
  split_ifs <;> simp [List.getLast?_concat]

theorem execBody_close (len : Nat) (c : Config) (o : Oracle) (ev : List Event) :
    Event.closeFd ∈ (execBody len c o ev).events ∧
    (execBody len c o ev).events.getLast? = some Event.closeFd := by
  unfold execBody
  rcases c with ⟨size, pec, dad, dlen⟩
  cases size <;> split_ifs <;>
    first
      | exact structFinish_close ..
      | simp [List.getLast?_concat]

theorem execute_close (len : Nat) (c : Config) (o : Oracle) (ev : List Event) :
    Event.closeFd ∈ (execute len c o ev).events ∧
    (execute len c o ev).events.getLast? = some Event.closeFd := by
  unfold execute
  split_ifs <;>
    first
      | exact execBody_close ..
      | simp [List.getLast?_concat]

theorem confirm_no_close (address : Nat) (c : Config) (resp : Char) :
    Event.closeFd ∉ (confirm address c resp).1 := by
  unfold confirm
  split_ifs <;> simp

theorem structFinish_events_prefix (ev : List Event) (size : SmbusSize) (res : Int) :
    ∃ t, (structFinish ev size res).events = ev ++ t := by
  unfold structFinish
  split_ifs <;> exact ⟨[Event.closeFd], rfl⟩

theorem execBody_events_prefix (len : Nat) (c : Config) (o : Oracle) (ev : List Event) :
    ∃ t, (execBody len c o ev).events = ev ++ t := by
  unfold execBody structFinish
  rcases c with ⟨size, pec, dad, dlen⟩
  cases size <;> split_ifs <;>
    first
      | exact ⟨[Event.closeFd], rfl⟩
      | (refine ⟨writeaddrEvents dad dlen ++ [Event.busRawRead len] ++ [Event.closeFd], ?_⟩
         simp
         done)
      | (refine ⟨writeaddrEvents dad dlen ++ [Event.busReadByte] ++ [Event.closeFd], ?_⟩
         simp
         done)
      | (refine ⟨[Event.busReadByteData] ++ [Event.closeFd], ?_⟩
         simp
         done)
      | (refine ⟨[Event.busReadWordData] ++ [Event.closeFd], ?_⟩
         simp
         done)

theorem execute_events_prefix (len : Nat) (c : Config) (o : Oracle) (ev : List Event) :
    ∃ t, (execute len c o ev).events = ev ++ t := by
  unfold execute
  split_ifs with h1 h2
  · exact ⟨[Event.pecIoctl] ++ [Event.closeFd], by simp⟩
  · obtain ⟨t, ht⟩ := execBody_events_prefix len c o (ev ++ [Event.pecIoctl])
    exact ⟨[Event.pecIoctl] ++ t, by rw [ht]; simp⟩
  · exact execBody_events_prefix len c o ev

theorem execBody_raw (len : Nat) (c : Config) (o : Oracle) (ev : List Event)
    (hlen : len ≠ 0) (halloc : o.allocOk = true) :
    (o.readRes = (len : Int) →
      (execBody len c o ev).exitCode = 0 ∧
      (execBody len c o ev).stdout = [formatRaw len (rawBuffer len o.readBytes)]) ∧
    (o.readRes ≠ (len : Int) →
      (execBody len c o ev).exitCode = 2 ∧ (execBody len c o ev).stdout = []) := by
  unfold execBody
  constructor <;> intro h <;> simp [hlen, halloc, h]

theorem execute_raw (len : Nat) (c : Config) (o : Oracle) (ev : List Event)
    (hlen : len ≠ 0) (hpec : c.pec = true → o.pecOk = true) (halloc : o.allocOk = true) :
    (o.readRes = (len : Int) →
      (execute len c o ev).exitCode = 0 ∧
      (execute len c o ev).stdout = [formatRaw len (rawBuffer len o.readBytes)]) ∧
    (o.readRes ≠ (len : Int) →
      (execute len c o ev).exitCode = 2 ∧ (execute len c o ev).stdout = []) := by
  unfold execute
  by_cases hp : c.pec = true
  · simp only [hp, if_pos, hpec hp]
    simp only [Bool.true_eq_false, if_false, if_neg]
    exact execBody_raw len c o (ev ++ [Event.pecIoctl]) hlen halloc
  · simp only [hp, if_neg]
    exact execBody_raw len c o ev hlen halloc

/-- C7 (amended): the bus handle is closed before exit exactly on the runs
that get past the open/capability/slave stages and the confirmation gate —
that covers success, PEC-enable failure, allocation failure and
transaction failure — and when it is closed, closing is the final action.
On capability/slave-binding failure and on a declined confirmation the
process exits without closing the handle. -/
theorem busHandle_close_iff_gate (a : Args) (o : Oracle) :
    (Event.closeFd ∈ (run a o).events ↔ gatePassed a o = true) ∧
    ((run a o).events.getLast? = some Event.closeFd ∨
      Event.closeFd ∉ (run a o).events) := by
  unfold run gatePassed
  cases hp : parseArgs a with
  | none => simp
  | some c =>
    by_cases ho : o.openOk = false
    · simp [ho]
    · by_cases hf : check_funcs o.funcs c.size c.daddress.isSome = false
      · simp [ho, hf]
      · by_cases hs : o.slaveOk = false
        · simp [ho, hf, hs]
        · by_cases hy : a.yes = true
          · have h1 := execute_close a.length c o [Event.openDev, Event.checkFuncsQ, Event.setSlave]
            simp only [ho, hf, hs, hy, Bool.not_eq_false] at *
            simp [hy, h1.1, h1.2, ho, hf, hs]
          · by_cases hc : (confirm a.address c o.resp).2 = true
            · have h1 := execute_close a.length c o
                ([Event.openDev, Event.checkFuncsQ, Event.setSlave] ++ (confirm a.address c o.resp).1)
              simp only [List.cons_append, List.nil_append] at h1
              simp only [Bool.not_eq_false] at ho hf hs
              simp [hy, hc, h1.1, h1.2, ho, hf, hs]
            · have hnc := confirm_no_close a.address c o.resp
              simp only [Bool.not_eq_false] at ho hf hs
              simp only [Bool.not_eq_true] at hy hc
              simp [hy, hc, ho, hf, hs, hnc]

/-- C7 (counterexample): an exit path taken after the handle was opened on
which it is not closed. The interactive invocation `cp` at chip 0x48 with
the user declining (reply `x` against default no) exits with code 0, yet no
close action appears in the trace. This refutes the claim that every
post-open exit path closes the handle. -/
theorem busHandle_close_counterexample :
    replyXOracle.openOk = true ∧
    (run cpPlainArgs replyXOracle).exitCode = 0 ∧
    Event.closeFd ∉ (run cpPlainArgs replyXOracle).events := by decide

/-- C2 (counterexample): with `-y` given, chip address 0x50 (EEPROM range)
and PEC requested (mode `bp`), the safety gate is skipped entirely and a
bus read transaction is issued — the hard EEPROM refusal does not happen,
so the abort is not independent of the assume-yes flag. -/
theorem eeprom_pec_counterexample :
    (parseArgs eepromYesArgs).map Config.pec = some true ∧
    eepromYesArgs.yes = true ∧
    Event.busReadByteData ∈ (run eepromYesArgs okOracle).events ∧
    (run eepromYesArgs okOracle).exitCode = 0 := by decide

/-- C2 (amended): without `-y`, a chip address in 0x50..0x57 with PEC
requested aborts with exit code 0 before any bus transaction, and no
confirmation prompt is offered: once the open/capability/slave stages have
passed, the run ends with exactly those three events. -/
theorem eeprom_pec_hard_refusal (a : Args) (o : Oracle) (c : Config)
    (hp : parseArgs a = some c) (hyes : a.yes = false)
    (h50 : 0x50 ≤ a.address) (h57 : a.address ≤ 0x57) (hpec : c.pec = true)
    (hopen : o.openOk = true)
    (hfun : check_funcs o.funcs c.size c.daddress.isSome = true)
    (hslave : o.slaveOk = true) :
    run a o = ⟨0, [Event.openDev, Event.checkFuncsQ, Event.setSlave], []⟩ := by
  unfold run
  rw [hp]
  simp [hopen, hfun, hslave, hyes, confirm, h50, h57, hpec]

/-- Witness for the amended C2: the interactive `bp` invocation at chip
0x50 stops after the slave binding with exit code 0 and no bus traffic. -/
theorem eeprom_pec_hard_refusal_witness :
    run eepromAskArgs okOracle = ⟨0, [Event.openDev, Event.checkFuncsQ, Event.setSlave], []⟩ :=
  eeprom_pec_hard_refusal eepromAskArgs okOracle
    ⟨SmbusSize.byteData, true, some 0x10, 1⟩
    (by decide) (by decide) (by decide) (by decide) (by decide) (by decide) (by decide)
    (by decide)

/-- C3 (counterexample): a RawRead invocation (`-l 3`, register 0x10, no
mode) against an adapter whose functionality word lacks only
`I2C_FUNC_SMBUS_READ_BYTE_DATA`: although the handle opens fine and the
executed plan would be `RawRead 3`, `check_funcs` is called with the
mode-derived structured size and its failure aborts the invocation with
exit 1 — an SMBus capability flag requirement does make a RawRead
invocation fail. -/
theorem rawRead_capability_counterexample :
    Option.map (executedPlan rawLenArgs.length) (parseArgs rawLenArgs) =
      some (Plan.rawRead 3) ∧
    noByteDataOracle.openOk = true ∧
    run rawLenArgs noByteDataOracle = ⟨1, [Event.openDev, Event.checkFuncsQ], []⟩ := by
  decide

/-- C3 (amended): `check_funcs` performs no check specific to the raw
transfer — its result never depends on the PEC or raw-I2C capability bits —
but it is still invoked with the mode-derived structured size even when a
raw length is requested, and its failure ends the RawRead invocation with
exit 1 before any bus traffic. -/
theorem rawRead_capability_check (a : Args) (o : Oracle) (c : Config)
    (hp : parseArgs a = some c) (hlen : a.length ≠ 0)
    (hopen : o.openOk = true)
    (hfail : check_funcs o.funcs c.size c.daddress.isSome = false) :
    executedPlan a.length c = Plan.rawRead a.length ∧
    run a o = ⟨1, [Event.openDev, Event.checkFuncsQ], []⟩ ∧
    (∀ (f : Funcs) (b1 b2 : Bool),
      check_funcs (some ⟨f.readByte, f.writeByte, f.readByteData, f.readWordData, b1, b2⟩)
          c.size c.daddress.isSome =
        check_funcs (some f) c.size c.daddress.isSome) := by
  refine ⟨?_, ?_, ?_⟩
  · simp [executedPlan, Nat.pos_of_ne_zero hlen]
  · unfold run
    rw [hp]
    simp [hopen, hfail]
  · intro f b1 b2
    cases hs : c.size <;> simp [check_funcs]

/-- Witness for the amended C3 at the concrete failing adapter. -/
theorem rawRead_capability_check_witness :
    run rawLenArgs noByteDataOracle = ⟨1, [Event.openDev, Event.checkFuncsQ], []⟩ :=
  (rawRead_capability_check rawLenArgs noByteDataOracle
    ⟨SmbusSize.byteData, false, some 0x10, 1⟩
    (by decide) (by decide) (by decide) (by decide)).2.1

/-- C6: on the raw path, once the gate has passed and allocation succeeded,
success requires the single `read` to return exactly the requested length:
that case exits 0 and prints the formatted buffer; any other returned count
(short read or error return) exits 2 with nothing on standard output. -/
theorem rawRead_requires_exact_count (a : Args) (o : Oracle) (c : Config)
    (hp : parseArgs a = some c) (hlen : a.length ≠ 0)
    (hgate : gatePassed a o = true)
    (hpec : c.pec = true → o.pecOk = true) (halloc : o.allocOk = true) :
    (o.readRes = (a.length : Int) →
      (run a o).exitCode = 0 ∧
      (run a o).stdout = [formatRaw a.length (rawBuffer a.length o.readBytes)]) ∧
    (o.readRes ≠ (a.length : Int) →
      (run a o).exitCode = 2 ∧ (run a o).stdout = []) := by
  unfold gatePassed at hgate
  rw [hp] at hgate
  simp only [Bool.and_eq_true, Bool.or_eq_true] at hgate
  obtain ⟨⟨⟨hopen, hfun⟩, hslave⟩, hyc⟩ := hgate
  unfold run
  rw [hp]
  simp only [hopen, hfun, hslave, Bool.true_eq_false, if_false]
  by_cases hy : a.yes = true
  · simp only [hy, if_pos]
    exact execute_raw a.length c o _ hlen hpec halloc
  · have hcf : (confirm a.address c o.resp).2 = true := by
      rcases hyc with h | h
      · exact absurd h hy
      · exact h
    simp only [hy, hcf, if_true, if_false]
    exact execute_raw a.length c o _ hlen hpec halloc

/-- Witness for C6: the `-l 3` invocation whose `read` returns only 2
bytes exits 2 and prints nothing. -/
theorem rawRead_requires_exact_count_witness :
    (run rawLenArgs shortReadOracle).exitCode = 2 ∧
    (run rawLenArgs shortReadOracle).stdout = [] :=
  (rawRead_requires_exact_count rawLenArgs shortReadOracle
    ⟨SmbusSize.byteData, false, some 0x10, 1⟩
    (by decide) (by decide) (by decide) (by decide) (by decide)).2 (by decide)

theorem run_interactive (a : Args) (o : Oracle) (c : Config)
    (hp : parseArgs a = some c) (hyes : a.yes = false)
    (hopen : o.openOk = true)
    (hfun : check_funcs o.funcs c.size c.daddress.isSome = true)
    (hslave : o.slaveOk = true) :
    run a o =
      (if (confirm a.address c o.resp).2 = true then
        execute a.length c o
          ([Event.openDev, Event.checkFuncsQ, Event.setSlave] ++ (confirm a.address c o.resp).1)
      else
        ⟨0, [Event.openDev, Event.checkFuncsQ, Event.setSlave] ++ (confirm a.address c o.resp).1, []⟩) := by
  unfold run
  rw [hp]
  simp [hopen, hfun, hslave, hyes]

/-- C8 (counterexample): the interactive CurrentByte-with-register-and-PEC
invocation (`cp`) at chip address 0x50 hits the EEPROM hard refusal first:
no confirmation prompt of either default is ever offered (the run ends
after the slave binding with exit 0), so the claim that every such
invocation gets a prompt defaulting to no fails. -/
theorem currentByte_pec_prompt_counterexample :
    (parseArgs cpEepromArgs).map
      (fun c => decide (c.size = SmbusSize.byte) && c.daddress.isSome && c.pec) = some true ∧
    cpEepromArgs.yes = false ∧
    Event.prompt false ∉ (run cpEepromArgs replyXOracle).events ∧
    Event.prompt true ∉ (run cpEepromArgs replyXOracle).events ∧
    (run cpEepromArgs replyXOracle).exitCode = 0 := by decide

/-- C8 (amended): for interactive invocations that reach the prompt (chip
address outside the EEPROM-with-PEC hard refusal), the
CurrentByte-with-register-address-and-PEC combination flips the prompt
default to no, any response other than an affirmative aborts with exit
code 0 (and no bus traffic), and every other prompted case offers default
yes. -/
theorem currentByte_pec_default_no (a : Args) (o : Oracle) (c : Config)
    (hp : parseArgs a = some c) (hyes : a.yes = false)
    (hopen : o.openOk = true)
    (hfun : check_funcs o.funcs c.size c.daddress.isSome = true)
    (hslave : o.slaveOk = true)
    (hout : ¬ (0x50 ≤ a.address ∧ a.address ≤ 0x57 ∧ c.pec = true)) :
    (c.size = SmbusSize.byte ∧ c.daddress.isSome = true ∧ c.pec = true →
      Event.prompt false ∈ (run a o).events ∧
      (o.resp ≠ 'y' → o.resp ≠ 'Y' →
        run a o =
          ⟨0, [Event.openDev, Event.checkFuncsQ, Event.setSlave, Event.prompt false], []⟩)) ∧
    (¬ (c.size = SmbusSize.byte ∧ c.daddress.isSome = true ∧ c.pec = true) →
      Event.prompt true ∈ (run a o).events) := by
  have hrun := run_interactive a o c hp hyes hopen hfun hslave
  constructor
  · rintro ⟨hsz, hdad, hpc⟩
    have hdont : (c.size == SmbusSize.byte && c.daddress.isSome && c.pec) = true := by
      simp [hsz, hdad, hpc]
    have hcf : confirm a.address c o.resp = ([Event.prompt false], user_ack false o.resp) := by
      simp [confirm, hout, hdont]
    constructor
    · rw [hrun, hcf]
      by_cases hack : user_ack false o.resp = true
      · simp only [hack, if_pos]
        obtain ⟨t, ht⟩ := execute_events_prefix a.length c o
          ([Event.openDev, Event.checkFuncsQ, Event.setSlave] ++ [Event.prompt false])
        rw [ht]
        simp
      · simp only [hack, if_neg, Bool.false_eq_true]
        simp
    · intro h1 h2
      have hackf : user_ack false o.resp = false := by
        simp [user_ack, h1, h2]
      rw [hrun, hcf]
      simp [hackf]
  · intro hnd
    have hdont : (c.size == SmbusSize.byte && c.daddress.isSome && c.pec) = false := by
      cases h : (c.size == SmbusSize.byte && c.daddress.isSome && c.pec) with
      | false => rfl
      | true =>
        exfalso
        apply hnd
        simpa [Bool.and_eq_true, beq_iff_eq, and_assoc] using h
    have hcf : confirm a.address c o.resp = ([Event.prompt true], user_ack true o.resp) := by
      simp [confirm, hout, hdont]
    rw [hrun, hcf]
    by_cases hack : user_ack true o.resp = true
    · simp only [hack, if_pos]
      obtain ⟨t, ht⟩ := execute_events_prefix a.length c o
        ([Event.openDev, Event.checkFuncsQ, Event.setSlave] ++ [Event.prompt true])
      rw [ht]
      simp
    · simp only [hack, if_neg, Bool.false_eq_true]
      simp

/-- Witness for the amended C8: the interactive `cp` invocation at chip
0x48 with reply `x` is prompted with default no and aborts with exit 0. -/
theorem currentByte_pec_default_no_witness :
    Event.prompt false ∈ (run cpPlainArgs replyXOracle).events ∧
    run cpPlainArgs replyXOracle =
      ⟨0, [Event.openDev, Event.checkFuncsQ, Event.setSlave, Event.prompt false], []⟩ := by
  have h := (currentByte_pec_default_no cpPlainArgs replyXOracle
    ⟨SmbusSize.byte, true, some 0x10, 1⟩
    (by decide) (by decide) (by decide) (by decide) (by decide) (by decide)).1
    ⟨by decide, by decide, by decide⟩
  exact ⟨h.1, h.2 (by decide) (by decide)⟩

theorem parse_daddrlen (a : Args) (c : Config) (hp : parseArgs a = some c) :
    ∀ d, c.daddress = some d → c.daddrlen = inferWidth d := by
  rcases a with ⟨yes, len, addr, pos⟩
  cases pos with
  | noDaddr =>
    simp [parseArgs] at hp
    intro d hd
    rw [← hp] at hd
    simp at hd
  | daddr dd =>
    simp [parseArgs] at hp
    intro d hd
    rw [← hp] at hd
    rw [← hp]
    simp only [Option.some.injEq] at hd
    simp [hd]
  | daddrMode dd m =>
    cases hm : m.head? with
    | none => simp [parseArgs, hm] at hp
    | some ch =>
      cases hms : modeSize ch with
      | none => simp [parseArgs, hm, hms] at hp
      | some s =>
        simp [parseArgs, hm, hms] at hp
        intro d hd
        rw [← hp] at hd
        rw [← hp]
        simp only [Option.some.injEq] at hd
        simp [hd]

/-- C9: when the supplied register address is 0 the inferred width is 0,
so on both paths that perform an explicit address write (the raw path and
the CurrentByte path) the `write` issued before the read carries zero
address bytes, even though a register address was supplied. -/
theorem zero_register_address_zero_bytes (a : Args) (c : Config)
    (hp : parseArgs a = some c) (h0 : c.daddress = some 0) :
    c.daddrlen = 0 ∧
    writeaddrEvents c.daddress c.daddrlen = [Event.busWrite []] ∧
    (∀ (o : Oracle) (ev : List Event), a.length ≠ 0 → o.allocOk = true →
      (execBody a.length c o ev).events =
        ev ++ [Event.busWrite [], Event.busRawRead a.length, Event.closeFd]) ∧
    (a.length = 0 → c.size = SmbusSize.byte →
      ∀ (o : Oracle) (ev : List Event),
        (execBody a.length c o ev).events =
          ev ++ [Event.busWrite [], Event.busReadByte, Event.closeFd]) := by
  have hdl : c.daddrlen = 0 := by
    have h := parse_daddrlen a c hp 0 h0
    simpa [inferWidth, inferWidthFuel] using h
  have hwe : writeaddrEvents c.daddress c.daddrlen = [Event.busWrite []] := by
    rw [h0, hdl]
    simp [writeaddrEvents, writeaddrBytes]
  refine ⟨hdl, hwe, ?_, ?_⟩
  · intro o ev hlen halloc
    unfold execBody
    simp only [hlen, if_true, halloc, Bool.true_eq_false, if_false, hwe]
    split_ifs <;> simp
  · intro hlen0 hsz o ev
    unfold execBody structFinish
    rw [hlen0]
    simp only [ne_eq, not_true_eq_false, if_false, hsz, hwe]
    split_ifs <;> simp

/-- Witness for C9: raw read of 3 bytes at register address 0 — the trace
shows an empty address write before the read. -/
theorem zero_register_address_zero_bytes_witness :
    (execBody zeroAddrRawArgs.length ⟨SmbusSize.byteData, false, some 0, 0⟩ okOracle []).events =
      [Event.busWrite [], Event.busRawRead 3, Event.closeFd] := by
  have h := (zero_register_address_zero_bytes zeroAddrRawArgs
    ⟨SmbusSize.byteData, false, some 0, 0⟩ (by decide) (by decide)).2.2.1 okOracle []
    (by decide) (by decide)
  simpa using h

/-- C10: PEC is enabled if and only if a mode argument is present and its
second character is exactly `p`; no mode argument means no PEC, and a
second character other than `p` leaves PEC disabled without being
rejected. -/
theorem pec_iff_mode_second_char (a : Args) (c : Config) (hp : parseArgs a = some c) :
    (c.pec = true ↔ ∃ d m, a.pos = Positional.daddrMode d m ∧ m.get? 1 = some 'p') := by
  rcases a with ⟨yes, len, addr, pos⟩
  cases pos with
  | noDaddr =>
    simp [parseArgs] at hp
    rw [← hp]
    simp
  | daddr dd =>
    simp [parseArgs] at hp
    rw [← hp]
    simp
  | daddrMode dd m =>
    cases hm : m.head? with
    | none => simp [parseArgs, hm] at hp
    | some ch =>
      cases hms : modeSize ch with
      | none => simp [parseArgs, hm, hms] at hp
      | some s =>
        simp [parseArgs, hm, hms] at hp
        rw [← hp]
        constructor
        · intro hb
          exact ⟨dd, m, rfl, by simpa [beq_iff_eq] using hb⟩
        · rintro ⟨d2, m2, heq, hp2⟩
          obtain ⟨hd2, hm2⟩ := Positional.daddrMode.inj heq
          subst hm2
          have hp2g : m[1]? = some 'p' := by
            rw [← List.get?_eq_getElem?]
            exact hp2
          simp [beq_iff_eq, hp2g]

/-- Witness for C10: mode argument `bx` is accepted (valid first
character), and by the equivalence its PEC flag is exactly the assertion
that the second character is `p` — which fails here, so PEC stays off. -/
theorem pec_iff_mode_second_char_witness :
    parseArgs bxModeArgs = some ⟨SmbusSize.byteData, false, some 0x10, 1⟩ ∧
    ((⟨SmbusSize.byteData, false, some 0x10, 1⟩ : Config).pec = true ↔
      ∃ d m, bxModeArgs.pos = Positional.daddrMode d m ∧ m.get? 1 = some 'p') :=
  ⟨by decide, pec_iff_mode_second_char bxModeArgs ⟨SmbusSize.byteData, false, some 0x10, 1⟩ (by decide)⟩

/-- C4 (code bug): the raw formatter's separator logic matches the claim
(3 bytes print space-separated, packed lengths print one numeral), but a
byte does not always render as exactly two hex digits: `resbufptr` is a
signed `char` buffer, so a byte at or above 0x80 is sign-extended before
`%02X` and prints as eight hex digits — byte 0x80 at length 1 renders as
`0xFFFFFF80` instead of the specified `0x80`. -/
theorem raw_formatter_sign_extension :
    formatRaw 3 [1, 2, 3] = "0x01 0x02 0x03" ∧
    formatRaw 1 [128] = "0xFFFFFF80" ∧
    formatRaw 4 [222, 173, 190, 239] = "0xFFFFFFDEFFFFFFADFFFFFFBEFFFFFFEF" := by decide
